import Mathlib

/-!
Shallow embedding of `vistopia` (src/vistopia/visitor.py, src/vistopia/main.py):
an authenticated downloader for a podcast platform.  Network responses, the
tagging library and the filesystem are modelled as explicit parameters; the
control flow of the Python functions is translated directly.
-/

namespace Vistopia

/-- A JSON value, as decoded by `requests.get(...).json()`. -/
inductive JsonVal where
  | str : String → JsonVal
  | num : Int → JsonVal
  | arr : List JsonVal → JsonVal
  | obj : List (String × JsonVal) → JsonVal
  deriving Repr

/-- Dictionary lookup `d[k]` / `d.get(k)` on a JSON object (first binding wins). -/
def getField (v : JsonVal) (k : String) : Option JsonVal :=
  match v with
  | .obj fields => (fields.find? (fun e => e.1 = k)).map (·.2)
  | _ => none

/-- The decoded JSON envelope of one platform API response: the `status`
string, the optional `data` member and the optional `message` member
(absent members are `none`). -/
structure ApiResponse where
  status : String
  data : Option JsonVal
  message : Option String
  deriving Repr

/-- A Python exception escaping `get_api_response` or an accessor. -/
inductive ApiError where
  | assertionError : String → ApiError
  | keyError : String → ApiError
  | typeError : String → ApiError
  deriving Repr, DecidableEq

/-- `Visitor.get_api_response` (visitor.py:36-79).  `resp` is the decoded
JSON of the GET against the primary URL; `alt` is the decoded JSON the
hardcoded fallback GET would return, consulted only in the
`uri == "user/subscriptions-list"` branch.  The Python body logs, then:
on non-success status tries the fallback for the one endpoint; then asserts
success and presence of `data`, returning `response["data"]`.  The trailing
`except ... raise` re-raises and is semantically transparent. -/
def get_api_response (uri : String) (resp : ApiResponse) (alt : ApiResponse) :
    Except ApiError JsonVal :=
  if resp.status ≠ "success" then
    if uri = "user/subscriptions-list" ∧ alt.status = "success" then
      match alt.data with
      | some d => .ok d
      | none => .error (.keyError "data")
    else
      .error (.assertionError ("API请求失败: " ++ resp.message.getD "未知错误"))
  else
    match resp.data with
    | some d =>
      if resp.status = "success" then .ok d
      else .error (.assertionError ("API请求失败: " ++ resp.message.getD "未知错误"))
    | none => .error (.assertionError "API响应中缺少'data'字段")

/-- `Visitor.get_catalog` (visitor.py:81-84): returns the envelope's `data`
payload unmodified. -/
def get_catalog (id : Int) (resp : ApiResponse) (alt : ApiResponse) :
    Except ApiError JsonVal :=
  get_api_response ("content/catalog/" ++ toString id) resp alt

/-- `Visitor.get_content_show` (visitor.py:113-116): returns the envelope's
`data` payload unmodified. -/
def get_content_show (id : Int) (resp : ApiResponse) (alt : ApiResponse) :
    Except ApiError JsonVal :=
  get_api_response ("content/content-show/" ++ toString id) resp alt

/-- `Visitor.search` (visitor.py:108-111): `response["data"]` — the `data`
member *inside* the payload returned by `get_api_response` (a `KeyError`
if absent). -/
def search (keyword : String) (resp : ApiResponse) (alt : ApiResponse) :
    Except ApiError JsonVal :=
  match get_api_response "search/web" resp alt with
  | .error e => .error e
  | .ok payload =>
    match getField payload "data" with
    | some v => .ok v
    | none => .error (.keyError "data")

/-- The normalization applied on the direct fallback path of
`get_user_subscriptions_list` (visitor.py:98): `alt_response["data"].get("data", [])`. -/
def subsFromAlt (payload : JsonVal) : JsonVal :=
  (getField payload "data").getD (.arr [])

/-- The normalization applied on the primary path of
`get_user_subscriptions_list` (visitor.py:103-106):
`data = []`, `data.extend(response["data"])`, `return data`.
`extend` of a non-list is modelled as a `TypeError`, a missing key as
`KeyError`. -/
def subsFromPrimary (payload : JsonVal) : Except ApiError JsonVal :=
  match getField payload "data" with
  | some (.arr l) => .ok (.arr (List.nil ++ l))
  | some _ => .error (.typeError "extend")
  | none => .error (.keyError "data")

/-- `Visitor.get_user_subscriptions_list` (visitor.py:86-106).  The code
first issues the fallback request directly (`directAlt` is its decoded
JSON); if its status is `"success"` and it has a `data` member the
normalized fallback payload is returned.  Otherwise (including any
exception, caught by the `try`) it falls through to
`get_api_response("user/subscriptions-list")` with `fallbackAlt` as that
call's internal fallback response. -/
def get_user_subscriptions_list (directAlt : ApiResponse)
    (primary : ApiResponse) (fallbackAlt : ApiResponse) :
    Except ApiError JsonVal :=
  match directAlt.data with
  | some d =>
    if directAlt.status = "success" then .ok (subsFromAlt d)
    else
      match get_api_response "user/subscriptions-list" primary fallbackAlt with
      | .error e => .error e
      | .ok payload => subsFromPrimary payload
  | none =>
    match get_api_response "user/subscriptions-list" primary fallbackAlt with
    | .error e => .error e
    | .ok payload => subsFromPrimary payload

/-- A concrete successful response for the search endpoint, whose payload is
an object `{"data": [7]}`. -/
def searchResp : ApiResponse :=
  ⟨"success", some (.obj [("data", .arr [.num 7])]), none⟩

/-- C2: `get_api_response` returns the decoded `data` payload exactly when the
parsed body has `status = "success"` and a `data` member; on any non-success
status it raises an assertion error carrying the platform's reported message
(default 未知错误), except that for the single endpoint
`user/subscriptions-list` it first tries the secondary endpoint and returns
that endpoint's `data` when it reports success. -/
theorem get_api_response_spec (uri : String) (resp alt : ApiResponse) (d : JsonVal) :
    (resp.status = "success" → resp.data = some d →
      get_api_response uri resp alt = .ok d) ∧
    (resp.status = "success" → resp.data = none →
      get_api_response uri resp alt = .error (.assertionError "API响应中缺少'data'字段")) ∧
    (resp.status ≠ "success" → uri ≠ "user/subscriptions-list" →
      get_api_response uri resp alt =
        .error (.assertionError ("API请求失败: " ++ resp.message.getD "未知错误"))) ∧
    (resp.status ≠ "success" → uri = "user/subscriptions-list" →
      alt.status = "success" → alt.data = some d →
      get_api_response uri resp alt = .ok d) ∧
    (resp.status ≠ "success" → uri = "user/subscriptions-list" →
      alt.status ≠ "success" →
      get_api_response uri resp alt =
        .error (.assertionError ("API请求失败: " ++ resp.message.getD "未知错误"))) := by
  refine ⟨?_, ?_, ?_, ?_, ?_⟩
  · intro h1 h2; simp [get_api_response, h1, h2]
  · intro h1 h2; simp [get_api_response, h1, h2]
  · intro h1 h2; simp [get_api_response, h1, h2]
  · intro h1 h2 h3 h4; simp [get_api_response, h1, h2, h3, h4]
  · intro h1 h2 h3; simp [get_api_response, h1, h2, h3]

/-- Witness for `get_api_response_spec`: a concrete success case. -/
theorem get_api_response_spec_witness :
    get_api_response "content/catalog/1"
      ⟨"success", some (.num 5), none⟩ ⟨"fail", none, none⟩ = .ok (.num 5) :=
  (get_api_response_spec "content/catalog/1" ⟨"success", some (.num 5), none⟩
    ⟨"fail", none, none⟩ (.num 5)).1 rfl rfl

/-- C3: the two normalization paths of `get_user_subscriptions_list` agree on
corresponding inputs: when the fallback payload and the primary payload each
hold the same list `l` under their `data` member, the function returns the
same flattened ordered list `l` whether the direct fallback request succeeds
or fails (here the failing fallback response lacks a `data` member, so the
primary path runs). -/
theorem subscriptions_normalization_equiv
    (l : List JsonVal) (dAlt failAlt primary fAlt : ApiResponse)
    (dPayload pPayload : JsonVal)
    (h1 : dAlt.status = "success") (h2 : dAlt.data = some dPayload)
    (h3 : getField dPayload "data" = some (.arr l))
    (h4 : primary.status = "success") (h5 : primary.data = some pPayload)
    (h6 : getField pPayload "data" = some (.arr l))
    (h7 : failAlt.data = none) :
    get_user_subscriptions_list dAlt primary fAlt = .ok (.arr l) ∧
    get_user_subscriptions_list failAlt primary fAlt = .ok (.arr l) := by
  constructor
  · simp [get_user_subscriptions_list, h1, h2, subsFromAlt, h3]
  · simp [get_user_subscriptions_list, h7, get_api_response, h4, h5,
      subsFromPrimary, h6]

/-- Witness for `subscriptions_normalization_equiv` at a concrete list. -/
theorem subscriptions_normalization_equiv_witness :
    get_user_subscriptions_list
      ⟨"success", some (.obj [("data", .arr [.str "a"])]), none⟩
      ⟨"success", some (.obj [("data", .arr [.str "a"])]), none⟩
      ⟨"fail", none, none⟩ = .ok (.arr [.str "a"]) ∧
    get_user_subscriptions_list
      ⟨"fail", none, none⟩
      ⟨"success", some (.obj [("data", .arr [.str "a"])]), none⟩
      ⟨"fail", none, none⟩ = .ok (.arr [.str "a"]) :=
  subscriptions_normalization_equiv [.str "a"]
    ⟨"success", some (.obj [("data", .arr [.str "a"])]), none⟩
    ⟨"fail", none, none⟩
    ⟨"success", some (.obj [("data", .arr [.str "a"])]), none⟩
    ⟨"fail", none, none⟩
    (.obj [("data", .arr [.str "a"])]) (.obj [("data", .arr [.str "a"])])
    rfl rfl rfl rfl rfl rfl rfl

/-- C5 counterexample: `search` does not return the `data` payload of the API
response unmodified — on a successful response whose payload is
`{"data": [7]}` it returns the inner list `[7]`, which differs from the
payload object. -/
theorem search_payload_modified_cex :
    get_api_response "search/web" searchResp searchResp =
      .ok (.obj [("data", .arr [.num 7])]) ∧
    search "k" searchResp searchResp = .ok (.arr [.num 7]) ∧
    JsonVal.arr [.num 7] ≠ JsonVal.obj [("data", .arr [.num 7])] :=
  ⟨rfl, rfl, fun h => nomatch h⟩

/-- C5 amended: `get_catalog` and `get_content_show` return the `data` payload
unmodified; `search` returns the `data` member *inside* that payload; the
subscriptions list is normalized (flattened) as in
`subscriptions_normalization_equiv`. -/
theorem accessors_payload_spec (id : Int) (keyword : String)
    (resp alt failAlt : ApiResponse) (d v : JsonVal) (l : List JsonVal)
    (h1 : resp.status = "success") (h2 : resp.data = some d) :
    get_catalog id resp alt = .ok d ∧
    get_content_show id resp alt = .ok d ∧
    (getField d "data" = some v → search keyword resp alt = .ok v) ∧
    (failAlt.data = none → getField d "data" = some (.arr l) →
      get_user_subscriptions_list failAlt resp alt = .ok (.arr l)) := by
  refine ⟨?_, ?_, ?_, ?_⟩
  · simp [get_catalog, get_api_response, h1, h2]
  · simp [get_content_show, get_api_response, h1, h2]
  · intro h3; simp [search, get_api_response, h1, h2, h3]
  · intro h3 h4
    simp [get_user_subscriptions_list, h3, get_api_response, h1, h2,
      subsFromPrimary, h4]

/-- Witness for `accessors_payload_spec` at the concrete search response. -/
theorem accessors_payload_spec_witness :
    get_catalog 3 searchResp searchResp = .ok (.obj [("data", .arr [.num 7])]) ∧
    search "k" searchResp searchResp = .ok (.arr [.num 7]) :=
  ⟨(accessors_payload_spec 3 "k" searchResp searchResp ⟨"fail", none, none⟩
      (.obj [("data", .arr [.num 7])]) (.arr [.num 7]) [.num 7] rfl rfl).1,
   (accessors_payload_spec 3 "k" searchResp searchResp ⟨"fail", none, none⟩
      (.obj [("data", .arr [.num 7])]) (.arr [.num 7]) [.num 7] rfl rfl).2.2.1 rfl⟩

/-- One article entry of a catalog (the dict iterated by the save loops).
`sort_number` is the episode index after the `int(...)` conversion the
guards apply. -/
structure Article where
  sort_number : Int
  title : String
  media_key_full_url : String
  content_url : String
  article_id : String
  deriving Repr, DecidableEq

/-- One entry of `catalog["catalog"]`: a named grouping whose `"part"` member
is the ordered article list.  The title is optional: `save_transcript` reads
it with `part.get("title", f"第{part_index+1}章")`. -/
structure CatalogPart where
  title : Option String
  part : List Article
  deriving Repr, DecidableEq

/-- The decoded catalog payload, restricted to the members the code reads. -/
structure Catalog where
  title : String
  subtitle : Option String
  author : Option String
  description : Option String
  background_img : String
  catalog : List CatalogPart
  deriving Repr, DecidableEq

/-- The decoded content-show payload (`series` in `save_show`). -/
structure Series where
  title : String
  author : String
  deriving Repr, DecidableEq

/-- The guard shared by all four save loops
(visitor.py:144-146, 193-195, 306-307, 534-535):
`if episodes and int(article["sort_number"]) not in episodes: continue`.
`episodes` is `Optional[set]`; Python truthiness makes both `None` and the
empty set skip nothing. -/
def skipArticle (episodes : Option (Finset Int)) (a : Article) : Bool :=
  match episodes with
  | none => false
  | some s => decide s.Nonempty && !(decide (a.sort_number ∈ s))

/-- All articles of the catalog in catalog order (parts in order, articles in
order within each part). -/
def allArticles (catalog : Catalog) : List Article :=
  catalog.catalog.flatMap (fun p => p.part)

/-- The article sequence the nested loops of `Visitor.save_show`
(visitor.py:141-146) let through. -/
def save_show_articles (catalog : Catalog) (episodes : Option (Finset Int)) :
    List Article :=
  catalog.catalog.flatMap (fun p => p.part.filter (fun a => !skipArticle episodes a))

/-- The article sequence the nested loops of `Visitor.save_transcript_html`
(visitor.py:190-195) let through. -/
def save_transcript_html_articles (catalog : Catalog)
    (episodes : Option (Finset Int)) : List Article :=
  catalog.catalog.flatMap (fun p => p.part.filter (fun a => !skipArticle episodes a))

/-- The article sequence the nested loops of `Visitor.save_transcript`
(visitor.py:293-307) reach past the episode guard. -/
def save_transcript_articles (catalog : Catalog)
    (episodes : Option (Finset Int)) : List Article :=
  catalog.catalog.flatMap (fun p => p.part.filter (fun a => !skipArticle episodes a))

/-- The article sequence the nested loops of
`Visitor.save_transcript_with_single_file` (visitor.py:532-535) let through. -/
def save_transcript_with_single_file_articles (catalog : Catalog)
    (episodes : Option (Finset Int)) : List Article :=
  catalog.catalog.flatMap (fun p => p.part.filter (fun a => !skipArticle episodes a))

/-- Modelled from the spec: the articles whose sort number is a member of the
restriction set, in catalog order; every article when the restriction is
empty or absent. -/
def selectedArticles (catalog : Catalog) (episodes : Option (Finset Int)) :
    List Article :=
  match episodes with
  | none => allArticles catalog
  | some s =>
    if s = ∅ then allArticles catalog
    else (allArticles catalog).filter (fun a => decide (a.sort_number ∈ s))

/-- The loop filter agrees with the spec-side selection. -/
theorem flatMap_filter_eq_selected (catalog : Catalog)
    (episodes : Option (Finset Int)) :
    catalog.catalog.flatMap
        (fun p => p.part.filter (fun a => !skipArticle episodes a)) =
      selectedArticles catalog episodes := by
  cases episodes with
  | none =>
    simp [selectedArticles, skipArticle, allArticles]
  | some s =>
    by_cases hs : s = ∅
    · subst hs
      simp [selectedArticles, skipArticle, allArticles]
    · have hne : s.Nonempty := Finset.nonempty_iff_ne_empty.mpr hs
      simp only [selectedArticles, if_neg hs, allArticles, List.filter_flatMap]
      refine congrArg _ (funext fun p => ?_)
      refine List.filter_congr (fun a _ => ?_)
      simp [skipArticle, hne]

/-- A two-article, one-part sample catalog used to instantiate theorems. -/
def artA : Article := ⟨1, "A", "urlA", "cA", "idA"⟩

/-- Second sample article. -/
def artB : Article := ⟨2, "B", "urlB", "cB", "idB"⟩

/-- Sample catalog holding `artA` and `artB` in one part. -/
def sampleCatalog : Catalog :=
  ⟨"节目", none, none, none, "bg.jpg", [⟨some "P1", [artA, artB]⟩]⟩

/-- Sample series record. -/
def sampleSeries : Series := ⟨"节目", "作者"⟩

/-- C4: `save_show`, `save_transcript`, `save_transcript_html` and
`save_transcript_with_single_file` all process exactly the articles whose
sort number is in the restriction set, in catalog order; when the
restriction is absent (`none`) or the empty set, every article is
processed. -/
theorem episode_selection_spec (catalog : Catalog) (episodes : Option (Finset Int)) :
    save_show_articles catalog episodes = selectedArticles catalog episodes ∧
    save_transcript_articles catalog episodes = selectedArticles catalog episodes ∧
    save_transcript_html_articles catalog episodes = selectedArticles catalog episodes ∧
    save_transcript_with_single_file_articles catalog episodes =
      selectedArticles catalog episodes ∧
    (∀ s, episodes = some s → s.Nonempty →
      save_show_articles catalog episodes =
        (allArticles catalog).filter (fun a => decide (a.sort_number ∈ s))) ∧
    ((episodes = none ∨ episodes = some ∅) →
      save_show_articles catalog episodes = allArticles catalog) := by
  refine ⟨flatMap_filter_eq_selected catalog episodes,
    flatMap_filter_eq_selected catalog episodes,
    flatMap_filter_eq_selected catalog episodes,
    flatMap_filter_eq_selected catalog episodes, ?_, ?_⟩
  · intro s hs hne
    rw [show save_show_articles catalog episodes =
        selectedArticles catalog episodes from
      flatMap_filter_eq_selected catalog episodes, hs]
    simp [selectedArticles, Finset.nonempty_iff_ne_empty.mp hne]
  · intro h
    rw [show save_show_articles catalog episodes =
        selectedArticles catalog episodes from
      flatMap_filter_eq_selected catalog episodes]
    rcases h with h | h <;> subst h <;> simp [selectedArticles]

/-- Witness for `episode_selection_spec`: with restriction `{1}` on the
sample catalog the processed sequence is exactly the articles with sort
number 1. -/
theorem episode_selection_spec_witness :
    save_show_articles sampleCatalog (some {1}) =
      (allArticles sampleCatalog).filter
        (fun a => decide (a.sort_number ∈ ({1} : Finset Int))) ∧
    save_show_articles sampleCatalog none = allArticles sampleCatalog :=
  ⟨(episode_selection_spec sampleCatalog (some {1})).2.2.2.2.1 {1} rfl (by decide),
   (episode_selection_spec sampleCatalog none).2.2.2.2.2 (Or.inl rfl)⟩

/-- An exception raised by `mutagen.easyid3.EasyID3(fname)`: either the
specific `ID3NoHeaderError` (caught by `retag`) or any other exception. -/
inductive TagError where
  | id3NoHeaderError : TagError
  | otherError : String → TagError
  deriving Repr, DecidableEq

/-- The behaviour of the external world during one `save_show` run: the
outcome of each tagging-library operation, keyed by audio file name.
`easyLoad`/`easySave` model `EasyID3(fname)` / `track.save(fname)` in
`retag`; `id3Load`/`id3Save` model `ID3(fname)` / `track.save()` in
`retag_cover`.  Audio and cover downloads (`urlretrieve`) are assumed to
succeed. -/
structure TagEnv where
  easyLoad : String → Except TagError Unit
  easySave : String → Except String Unit
  id3Load : String → Except String Unit
  id3Save : String → Except String Unit

/-- Observable actions of a `save_show` run. -/
inductive Event where
  | download (url fname : String)
  | retagged (fname title album artist tracknumber website : String)
  | printTagSaveError (msg : String)
  | coverFetch (url : String)
  | coverEmbed (fname : String)
  deriving Repr, DecidableEq

/-- State threaded through the `save_show` loop: the set of audio files on
disk (as a list of paths), the events so far, and the uncaught exception
that aborted the run, if any. -/
structure SaveState where
  fs : List String
  events : List Event
  crashed : Option String
  deriving Repr, DecidableEq

/-- The audio path `downloads/<san(catalog title)>/audio/<san(article title)>.mp3`
built at visitor.py:129-150.  `san` stands for `pathvalidate.sanitize_filename`,
an arbitrary pure function here. -/
def audioFname (san : String → String) (catalog : Catalog) (a : Article) : String :=
  "downloads/" ++ san catalog.title ++ "/audio/" ++ san a.title ++ ".mp3"

/-- `Visitor.retag` (visitor.py:556-583): loading the existing tag catches
only `ID3NoHeaderError` (a fresh tag is used; any other exception
propagates); the five tag assignments cannot fail; `track.save(fname)`
failures are caught and printed, so the article's processing continues. -/
def retag (env : TagEnv) (fname : String) (a : Article) (series : Series) :
    Except String (List Event) :=
  match env.easyLoad fname with
  | .error (.otherError e) => .error e
  | _ =>
    match env.easySave fname with
    | .ok _ => .ok [.retagged fname a.title series.title series.author
        (toString a.sort_number) a.content_url]
    | .error e => .ok [.printTagSaveError ("Error saving ID3 tags: " ++ e)]

/-- `Visitor.retag_cover` (visitor.py:585-603).  `_get_cover` carries
`@lru_cache()`, but it is a local function object created afresh on every
call to `retag_cover`, so its cache is empty each time and the cover URL is
fetched on every call.  There is no exception handling: a failure of
`ID3(fname)` or of `track.save()` propagates to the caller. -/
def retag_cover (env : TagEnv) (fname : String) (coverUrl : String) :
    List Event × Option String :=
  match env.id3Load fname with
  | .error e => ([.coverFetch coverUrl], some e)
  | .ok _ =>
    match env.id3Save fname with
    | .error e => ([.coverFetch coverUrl], some e)
    | .ok _ => ([.coverFetch coverUrl, .coverEmbed fname], none)

/-- The body of the `save_show` loop for one article past the episode guard
(visitor.py:148-159): download to `<title>.mp3` unless that file already
exists (`present`), then `retag` unless `no_tag`, then `retag_cover` unless
`no_cover`.  Returns the events of this article's processing and the
uncaught exception, if one was raised (an exception from `retag` skips the
cover step, as in Python). -/
def articleRun (env : TagEnv) (san : String → String) (no_tag no_cover : Bool)
    (catalog : Catalog) (series : Series) (a : Article) (present : Bool) :
    List Event × Option String :=
  let fname := audioFname san catalog a
  let dl : List Event :=
    if present then [] else [.download a.media_key_full_url fname]
  let tagStep : List Event × Option String :=
    if no_tag then ([], none)
    else
      match retag env fname a series with
      | .ok evs => (evs, none)
      | .error e => ([], some e)
  match tagStep.2 with
  | some e => (dl ++ tagStep.1, some e)
  | none =>
    if no_cover then (dl ++ tagStep.1, none)
    else
      let r := retag_cover env fname catalog.background_img
      (dl ++ tagStep.1 ++ r.1, r.2)

/-- The article loop of `save_show` (visitor.py:141-159), over the flattened
part/article sequence (the nested loops yield exactly this order).  The
second argument is the set of audio files on disk.  An uncaught exception
stops all further processing, as in Python. -/
def saveShowLoop (env : TagEnv) (san : String → String) (no_tag no_cover : Bool)
    (catalog : Catalog) (series : Series) (episodes : Option (Finset Int)) :
    List Article → List String → SaveState
  | [], fs => ⟨fs, [], none⟩
  | a :: rest, fs =>
    if skipArticle episodes a then
      saveShowLoop env san no_tag no_cover catalog series episodes rest fs
    else
      let fname := audioFname san catalog a
      let r := articleRun env san no_tag no_cover catalog series a
        (decide (fname ∈ fs))
      let fs1 := if fname ∈ fs then fs else fname :: fs
      match r.2 with
      | some e => ⟨fs1, r.1, some e⟩
      | none =>
        let tail := saveShowLoop env san no_tag no_cover catalog series episodes rest fs1
        ⟨tail.fs, r.1 ++ tail.events, tail.crashed⟩

/-- `Visitor.save_show` (visitor.py:118-159), started on a filesystem that
already holds the audio files `fs0`.  Directory creation and console
printing are not modelled. -/
def save_show (env : TagEnv) (san : String → String) (catalog : Catalog)
    (series : Series) (no_tag no_cover : Bool) (episodes : Option (Finset Int))
    (fs0 : List String) : SaveState :=
  saveShowLoop env san no_tag no_cover catalog series episodes
    (catalog.catalog.flatMap (fun p => p.part)) fs0

/-- Predicate selecting audio-download events. -/
def isDownload : Event → Bool
  | .download _ _ => true
  | _ => false

/-- Predicate selecting cover-image network fetches. -/
def isCoverFetch : Event → Bool
  | .coverFetch _ => true
  | _ => false

/-- The audio-download events of a trace. -/
def downloadEvents (evs : List Event) : List Event :=
  evs.filter isDownload

/-- How many times the cover image was fetched over the network. -/
def coverFetchCount (evs : List Event) : Nat :=
  (evs.filter isCoverFetch).length

/-- A `TagEnv` in which every tagging-library operation succeeds. -/
def allOkEnv : TagEnv :=
  ⟨fun _ => .ok (), fun _ => .ok (), fun _ => .ok (), fun _ => .ok ()⟩

/-- A successful `retag` call yields either the tag-written event or the
printed save-error event; it never downloads or touches the cover. -/
theorem retag_ok_shape (env : TagEnv) (fname : String) (a : Article) (ser : Series)
    (evs : List Event) (h : retag env fname a ser = .ok evs) :
    evs = [.retagged fname a.title ser.title ser.author
      (toString a.sort_number) a.content_url] ∨
    ∃ e, evs = [.printTagSaveError ("Error saving ID3 tags: " ++ e)] := by
  unfold retag at h
  cases hl : env.easyLoad fname with
  | ok u =>
    rw [hl] at h
    cases hs : env.easySave fname with
    | ok v => rw [hs] at h; exact Or.inl (Except.ok.inj h).symm
    | error e => rw [hs] at h; exact Or.inr ⟨e, (Except.ok.inj h).symm⟩
  | error te =>
    cases te with
    | id3NoHeaderError =>
      rw [hl] at h
      cases hs : env.easySave fname with
      | ok v => rw [hs] at h; exact Or.inl (Except.ok.inj h).symm
      | error e => rw [hs] at h; exact Or.inr ⟨e, (Except.ok.inj h).symm⟩
    | otherError e => rw [hl] at h; exact absurd h (by simp)

/-- `retag_cover` either succeeds — fetching the cover and embedding it — or
raises after the fetch. -/
theorem retag_cover_shape (env : TagEnv) (fname coverUrl : String) :
    (retag_cover env fname coverUrl =
        ([.coverFetch coverUrl, .coverEmbed fname], none)) ∨
    ∃ e, retag_cover env fname coverUrl = ([.coverFetch coverUrl], some e) := by
  unfold retag_cover
  cases hl : env.id3Load fname with
  | ok u =>
    cases hs : env.id3Save fname with
    | ok v => exact Or.inl rfl
    | error e => exact Or.inr ⟨e, rfl⟩
  | error e => exact Or.inr ⟨e, rfl⟩

/-- Any download event in one article's run is the download of that
article's audio URL to that article's file, and happens only when the file
was not present. -/
theorem articleRun_download_mem (env : TagEnv) (san : String → String)
    (nt nc : Bool) (cat : Catalog) (ser : Series) (a : Article) (present : Bool)
    (url f : String)
    (h : Event.download url f ∈ (articleRun env san nt nc cat ser a present).1) :
    present = false ∧ f = audioFname san cat a ∧ url = a.media_key_full_url := by
  simp only [articleRun] at h
  have hcov := retag_cover_shape env (audioFname san cat a) cat.background_img
  cases hnt : nt with
  | true =>
    rw [hnt] at h
    rcases hcov with hc | ⟨e, hc⟩ <;> cases hnc : nc <;>
      simp only [hnc, hc, if_true, if_false] at h <;>
      cases hp : present <;> simp_all
  | false =>
    rw [hnt] at h
    cases hr : retag env (audioFname san cat a) a ser with
    | ok evs =>
      rw [hr] at h
      rcases retag_ok_shape env _ a ser evs hr with he | ⟨e2, he⟩ <;> subst he <;>
        rcases hcov with hc | ⟨e, hc⟩ <;> cases hnc : nc <;>
          simp only [hnc, hc, if_true, if_false] at h <;>
          cases hp : present <;> simp_all
    | error e =>
      rw [hr] at h
      cases hp : present <;> simp_all

/-- Files present before the loop are still present after it. -/
theorem saveShowLoop_fs_mono (env : TagEnv) (san : String → String)
    (nt nc : Bool) (cat : Catalog) (ser : Series) (eps : Option (Finset Int))
    (L : List Article) (fs : List String) (f : String) (hf : f ∈ fs) :
    f ∈ (saveShowLoop env san nt nc cat ser eps L fs).fs := by
  induction L generalizing fs with
  | nil => simpa [saveShowLoop] using hf
  | cons a rest ih =>
    by_cases hskip : skipArticle eps a
    · simpa [saveShowLoop, hskip] using ih fs hf
    · simp only [saveShowLoop, hskip, if_false, Bool.false_eq_true]
      cases her : (articleRun env san nt nc cat ser a
          (decide (audioFname san cat a ∈ fs))).2 with
      | some e =>
        simp only [her]
        by_cases hp : audioFname san cat a ∈ fs <;> simp [hp, hf]
      | none =>
        simp only [her]
        by_cases hp : audioFname san cat a ∈ fs
        · simpa [hp] using ih fs hf
        · simpa [hp] using ih (audioFname san cat a :: fs) (List.mem_cons_of_mem _ hf)

/-- No file that already exists is ever downloaded by the loop: the
`urlretrieve` branch runs only when the file does not exist, and files are
never removed. -/
theorem saveShowLoop_no_download_of_existing (env : TagEnv) (san : String → String)
    (nt nc : Bool) (cat : Catalog) (ser : Series) (eps : Option (Finset Int))
    (L : List Article) (fs : List String) (url f : String) (hf : f ∈ fs) :
    Event.download url f ∉ (saveShowLoop env san nt nc cat ser eps L fs).events := by
  induction L generalizing fs with
  | nil => simp [saveShowLoop]
  | cons a rest ih =>
    by_cases hskip : skipArticle eps a
    · simpa [saveShowLoop, hskip] using ih fs hf
    · simp only [saveShowLoop, hskip, if_false, Bool.false_eq_true]
      have hpr : Event.download url f ∉ (articleRun env san nt nc cat ser a
          (decide (audioFname san cat a ∈ fs))).1 := by
        intro hmem
        obtain ⟨hp, hfe, _⟩ := articleRun_download_mem env san nt nc cat ser a _ url f hmem
        rw [hfe] at hf
        simp [hf] at hp
      cases her : (articleRun env san nt nc cat ser a
          (decide (audioFname san cat a ∈ fs))).2 with
      | some e =>
        dsimp only
        exact hpr
      | none =>
        dsimp only
        rw [List.mem_append, not_or]
        refine ⟨hpr, ?_⟩
        by_cases hp : audioFname san cat a ∈ fs
        · rw [if_pos hp]; exact ih fs hf
        · rw [if_neg hp]; exact ih _ (List.mem_cons_of_mem _ hf)

/-- If the run finished without an uncaught exception, every selected
article's audio file exists afterwards. -/
theorem saveShowLoop_completes (env : TagEnv) (san : String → String)
    (nt nc : Bool) (cat : Catalog) (ser : Series) (eps : Option (Finset Int))
    (L : List Article) (fs : List String)
    (hok : (saveShowLoop env san nt nc cat ser eps L fs).crashed = none) :
    ∀ a ∈ L, skipArticle eps a = false →
      audioFname san cat a ∈ (saveShowLoop env san nt nc cat ser eps L fs).fs := by
  induction L generalizing fs with
  | nil => simp
  | cons b rest ih =>
    intro a ha hsel
    by_cases hskip : skipArticle eps b
    · rcases List.mem_cons.mp ha with rfl | ha'
      · rw [hsel] at hskip; exact absurd hskip (by simp)
      · simp only [saveShowLoop, hskip, if_true] at hok ⊢
        exact ih fs hok a ha' hsel
    · simp only [saveShowLoop, hskip, if_false, Bool.false_eq_true] at hok ⊢
      cases her : (articleRun env san nt nc cat ser b
          (decide (audioFname san cat b ∈ fs))).2 with
      | some e => rw [her] at hok; simp at hok
      | none =>
        rw [her] at hok
        dsimp only at hok ⊢
        rcases List.mem_cons.mp ha with rfl | ha'
        · by_cases hp : audioFname san cat a ∈ fs
          · rw [if_pos hp]
            exact saveShowLoop_fs_mono env san nt nc cat ser eps rest fs _ hp
          · rw [if_neg hp]
            exact saveShowLoop_fs_mono env san nt nc cat ser eps rest _ _
              (List.mem_cons_self _ _)
        · by_cases hp : audioFname san cat b ∈ fs
          · rw [if_pos hp] at hok ⊢; exact ih fs hok a ha' hsel
          · rw [if_neg hp] at hok ⊢; exact ih _ hok a ha' hsel

/-- An article whose audio file is already present triggers no download. -/
theorem articleRun_no_download_of_present (env : TagEnv) (san : String → String)
    (nt nc : Bool) (cat : Catalog) (ser : Series) (a : Article) :
    downloadEvents (articleRun env san nt nc cat ser a true).1 = [] := by
  rw [downloadEvents, List.filter_eq_nil_iff]
  intro e he hd
  cases e with
  | download url f =>
    obtain ⟨hp, _, _⟩ := articleRun_download_mem env san nt nc cat ser a true url f he
    exact absurd hp (by simp)
  | retagged _ _ _ _ _ _ => simp [isDownload] at hd
  | printTagSaveError _ => simp [isDownload] at hd
  | coverFetch _ => simp [isDownload] at hd
  | coverEmbed _ => simp [isDownload] at hd

/-- A run on a filesystem that already holds every selected article's audio
file leaves the filesystem unchanged and performs no download at all. -/
theorem saveShowLoop_all_present (env : TagEnv) (san : String → String)
    (nt nc : Bool) (cat : Catalog) (ser : Series) (eps : Option (Finset Int))
    (L : List Article) (fs : List String)
    (hall : ∀ a ∈ L, skipArticle eps a = false → audioFname san cat a ∈ fs) :
    (saveShowLoop env san nt nc cat ser eps L fs).fs = fs ∧
    downloadEvents (saveShowLoop env san nt nc cat ser eps L fs).events = [] := by
  induction L generalizing fs with
  | nil => simp [saveShowLoop, downloadEvents]
  | cons a rest ih =>
    by_cases hskip : skipArticle eps a
    · simp only [saveShowLoop, hskip, if_true]
      exact ih fs (fun b hb hs => hall b (List.mem_cons_of_mem _ hb) hs)
    · have hpres : audioFname san cat a ∈ fs :=
        hall a (List.mem_cons_self _ _) (by simpa using hskip)
      have hdec : decide (audioFname san cat a ∈ fs) = true := by simp [hpres]
      have hdl : downloadEvents (articleRun env san nt nc cat ser a
          (decide (audioFname san cat a ∈ fs))).1 = [] := by
        rw [hdec]; exact articleRun_no_download_of_present env san nt nc cat ser a
      simp only [saveShowLoop, hskip, if_false, Bool.false_eq_true]
      cases her : (articleRun env san nt nc cat ser a
          (decide (audioFname san cat a ∈ fs))).2 with
      | some e =>
        dsimp only
        rw [if_pos hpres]
        exact ⟨rfl, hdl⟩
      | none =>
        dsimp only
        rw [if_pos hpres]
        obtain ⟨h1, h2⟩ := ih fs (fun b hb hs => hall b (List.mem_cons_of_mem _ hb) hs)
        refine ⟨h1, ?_⟩
        rw [downloadEvents, List.filter_append]
        rw [downloadEvents] at hdl h2
        rw [hdl, h2]
        rfl

/-- C1: running `save_show` twice with the same catalog produces the same
set of files — the second run leaves the filesystem unchanged and performs
no download at all — and in any run a file that already exists is never
passed to `urlretrieve` (the download branch runs only when the file does
not exist).  The hypothesis says the first run finished without an uncaught
exception. -/
theorem save_show_idempotent (env : TagEnv) (san : String → String)
    (catalog : Catalog) (series : Series) (nt nc : Bool)
    (episodes : Option (Finset Int)) (fs0 : List String)
    (h : (save_show env san catalog series nt nc episodes fs0).crashed = none) :
    (save_show env san catalog series nt nc episodes
        (save_show env san catalog series nt nc episodes fs0).fs).fs =
      (save_show env san catalog series nt nc episodes fs0).fs ∧
    downloadEvents (save_show env san catalog series nt nc episodes
        (save_show env san catalog series nt nc episodes fs0).fs).events = [] ∧
    (∀ f ∈ fs0, ∀ url,
      Event.download url f ∉ (save_show env san catalog series nt nc episodes fs0).events) := by
  unfold save_show at h ⊢
  have hall := saveShowLoop_completes env san nt nc catalog series episodes
    (catalog.catalog.flatMap fun p => p.part) fs0 h
  obtain ⟨h1, h2⟩ := saveShowLoop_all_present env san nt nc catalog series episodes
    (catalog.catalog.flatMap fun p => p.part)
    (saveShowLoop env san nt nc catalog series episodes
      (catalog.catalog.flatMap fun p => p.part) fs0).fs hall
  exact ⟨h1, h2, fun f hf url =>
    saveShowLoop_no_download_of_existing env san nt nc catalog series episodes
      _ fs0 url f hf⟩

/-- Witness for `save_show_idempotent` on the sample catalog with an
all-successful environment: a second run changes nothing on disk. -/
theorem save_show_idempotent_witness :
    (save_show allOkEnv (fun s => s) sampleCatalog sampleSeries false false none
        (save_show allOkEnv (fun s => s) sampleCatalog sampleSeries false false
          none []).fs).fs =
      (save_show allOkEnv (fun s => s) sampleCatalog sampleSeries false false
        none []).fs :=
  (save_show_idempotent allOkEnv (fun s => s) sampleCatalog sampleSeries false false
    none [] (by decide)).1

/-- C7 (code bug): in one `save_show` run over two articles that share the
catalog's single background-image URL, the cover is fetched over the
network twice — once per article — not at most once per unique URL: the
`@lru_cache()` on `_get_cover` is attached to a function object recreated
inside every `retag_cover` call, so the intended memoization never takes
effect across articles. -/
theorem cover_refetched_each_article :
    coverFetchCount (save_show allOkEnv (fun s => s) sampleCatalog sampleSeries
        false false none []).events = 2 ∧
    (save_show allOkEnv (fun s => s) sampleCatalog sampleSeries
        false false none []).events.filter isCoverFetch =
      [.coverFetch "bg.jpg", .coverFetch "bg.jpg"] := by
  exact ⟨rfl, rfl⟩

/-- With the cover operations succeeding and the tag load at worst missing
an ID3 header, one article's run (default flags) succeeds: it emits the
optional download, one tag event, then the cover fetch and embed.  The tag
event is the successful `retagged` record whenever `track.save` succeeds. -/
theorem articleRun_good (env : TagEnv) (san : String → String) (cat : Catalog)
    (ser : Series) (a : Article) (present : Bool)
    (hl : env.id3Load (audioFname san cat a) = .ok ())
    (hs : env.id3Save (audioFname san cat a) = .ok ())
    (he : env.easyLoad (audioFname san cat a) = .ok () ∨
      env.easyLoad (audioFname san cat a) = .error .id3NoHeaderError) :
    ∃ tagEv, articleRun env san false false cat ser a present =
      ((if present then [] else
          [.download a.media_key_full_url (audioFname san cat a)]) ++
        [tagEv, .coverFetch cat.background_img,
          .coverEmbed (audioFname san cat a)], none) ∧
      isCoverFetch tagEv = false ∧ isDownload tagEv = false ∧
      (env.easySave (audioFname san cat a) = .ok () →
        tagEv = .retagged (audioFname san cat a) a.title ser.title ser.author
          (toString a.sort_number) a.content_url) := by
  cases hsv : env.easySave (audioFname san cat a) with
  | ok u =>
    refine ⟨.retagged (audioFname san cat a) a.title ser.title ser.author
      (toString a.sort_number) a.content_url, ?_, rfl, rfl, fun _ => rfl⟩
    rcases he with he | he <;>
      simp [articleRun, retag, retag_cover, he, hsv, hl, hs]
  | error e =>
    refine ⟨.printTagSaveError ("Error saving ID3 tags: " ++ e), ?_, rfl, rfl,
      fun hok => absurd hok (by simp)⟩
    rcases he with he | he <;>
      simp [articleRun, retag, retag_cover, he, hsv, hl, hs]

/-- With the cover operations succeeding and the tag load at worst missing
an ID3 header — `track.save` may fail arbitrarily — the whole loop finishes
without an uncaught exception, fetches the cover once per selected article,
embeds the cover for every selected article, and (when `track.save` always
succeeds) writes the tag record of every selected article. -/
theorem saveShowLoop_good (env : TagEnv) (san : String → String) (cat : Catalog)
    (ser : Series) (eps : Option (Finset Int))
    (hl : ∀ f, env.id3Load f = .ok ()) (hs : ∀ f, env.id3Save f = .ok ())
    (he : ∀ f, env.easyLoad f = .ok () ∨ env.easyLoad f = .error .id3NoHeaderError)
    (L : List Article) (fs : List String) :
    (saveShowLoop env san false false cat ser eps L fs).crashed = none ∧
    coverFetchCount (saveShowLoop env san false false cat ser eps L fs).events =
      (L.filter (fun a => !skipArticle eps a)).length ∧
    (∀ a ∈ L, skipArticle eps a = false →
      Event.coverEmbed (audioFname san cat a) ∈
        (saveShowLoop env san false false cat ser eps L fs).events) ∧
    ((∀ f, env.easySave f = .ok ()) → ∀ a ∈ L, skipArticle eps a = false →
      Event.retagged (audioFname san cat a) a.title ser.title ser.author
        (toString a.sort_number) a.content_url ∈
        (saveShowLoop env san false false cat ser eps L fs).events) := by
  induction L generalizing fs with
  | nil => simp [saveShowLoop, coverFetchCount]
  | cons a rest ih =>
    by_cases hskip : skipArticle eps a
    · obtain ⟨i1, i2, i3, i4⟩ := ih fs
      simp only [saveShowLoop, hskip, if_true]
      refine ⟨i1, ?_, ?_, ?_⟩
      · rw [List.filter_cons_of_neg (by simp [hskip])]
        exact i2
      · intro b hb hsel
        rcases List.mem_cons.mp hb with rfl | hb'
        · rw [hsel] at hskip; exact absurd hskip (by simp)
        · exact i3 b hb' hsel
      · intro hsv b hb hsel
        rcases List.mem_cons.mp hb with rfl | hb'
        · rw [hsel] at hskip; exact absurd hskip (by simp)
        · exact i4 hsv b hb' hsel
    · obtain ⟨tagEv, hrun, htc, htd, htag⟩ := articleRun_good env san cat ser a
        (decide (audioFname san cat a ∈ fs)) (hl _) (hs _) (he _)
      have h2 : (articleRun env san false false cat ser a
          (decide (audioFname san cat a ∈ fs))).2 = none := by rw [hrun]
      have h1 : (articleRun env san false false cat ser a
          (decide (audioFname san cat a ∈ fs))).1 =
          (if decide (audioFname san cat a ∈ fs) then [] else
            [.download a.media_key_full_url (audioFname san cat a)]) ++
          [tagEv, .coverFetch cat.background_img,
            .coverEmbed (audioFname san cat a)] := by rw [hrun]
      simp only [saveShowLoop, hskip, if_false, Bool.false_eq_true]
      rw [h2]
      dsimp only
      obtain ⟨i1, i2, i3, i4⟩ := ih (if audioFname san cat a ∈ fs then fs
        else audioFname san cat a :: fs)
      refine ⟨i1, ?_, ?_, ?_⟩
      · rw [List.filter_cons_of_pos (by simp [hskip])]
        rw [coverFetchCount, List.filter_append, List.length_append, h1]
        rw [coverFetchCount] at i2
        rw [i2]
        have hdl : List.filter isCoverFetch
            ((if decide (audioFname san cat a ∈ fs) then ([] : List Event) else
              [.download a.media_key_full_url (audioFname san cat a)]) ++
            [tagEv, .coverFetch cat.background_img,
              .coverEmbed (audioFname san cat a)]) = [.coverFetch cat.background_img] := by
          rw [List.filter_append]
          cases hp : decide (audioFname san cat a ∈ fs) <;>
            simp only [List.filter_cons, List.filter_nil, htc] <;>
            simp [isCoverFetch]
        rw [hdl]
        simp [Nat.add_comm]
      · intro b hb hsel
        rcases List.mem_cons.mp hb with rfl | hb'
        · rw [List.mem_append, h1]
          exact Or.inl (by simp)
        · exact List.mem_append.mpr (Or.inr (i3 b hb' hsel))
      · intro hsv b hb hsel
        rcases List.mem_cons.mp hb with rfl | hb'
        · rw [List.mem_append, h1, htag (hsv _)]
          exact Or.inl (by simp)
        · exact List.mem_append.mpr (Or.inr (i4 hsv b hb' hsel))

/-- An environment in which embedding the cover into article A's file raises
(`ID3(fname)` fails there) while everything else succeeds. -/
def coverFailEnv : TagEnv :=
  ⟨fun _ => .ok (), fun _ => .ok (),
   fun f => if f = "downloads/节目/audio/A.mp3" then .error "boom" else .ok (),
   fun _ => .ok ()⟩

/-- An environment in which every `track.save(fname)` call inside `retag`
fails, while loading and the cover operations succeed. -/
def saveFailEnv : TagEnv :=
  ⟨fun _ => .ok (), fun _ => .error "disk full", fun _ => .ok (), fun _ => .ok ()⟩

/-- C8 counterexample: a failure while embedding cover art (here `ID3(fname)`
raising inside `retag_cover` on the first article) is fatal: the run stops
with the uncaught exception, the second selected article is never processed
— its audio file is not downloaded and no event mentions it — contradicting
"save_show continues with the remaining episodes". -/
theorem cover_failure_aborts_cex :
    (save_show coverFailEnv (fun s => s) sampleCatalog sampleSeries false false
        none []).crashed = some "boom" ∧
    (save_show coverFailEnv (fun s => s) sampleCatalog sampleSeries false false
        none []).fs = ["downloads/节目/audio/A.mp3"] ∧
    (save_show coverFailEnv (fun s => s) sampleCatalog sampleSeries false false
        none []).events =
      [.download "urlA" "downloads/节目/audio/A.mp3",
       .retagged "downloads/节目/audio/A.mp3" "A" "节目" "作者" "1" "cA",
       .coverFetch "bg.jpg"] :=
  ⟨rfl, rfl, rfl⟩

/-- C8 amended: only the ID3 *save* step inside `retag` is guarded — when
the cover operations succeed and loading at worst lacks an ID3 header,
failures of `track.save` are caught and printed and `save_show` continues:
the run never crashes and every selected article is still processed through
cover embedding.  (Failures inside `retag_cover`, by contrast, abort the
run.) -/
theorem retag_save_failure_nonfatal (env : TagEnv) (san : String → String)
    (catalog : Catalog) (series : Series) (episodes : Option (Finset Int))
    (fs0 : List String)
    (hl : ∀ f, env.id3Load f = .ok ()) (hs : ∀ f, env.id3Save f = .ok ())
    (he : ∀ f, env.easyLoad f = .ok () ∨ env.easyLoad f = .error .id3NoHeaderError) :
    (save_show env san catalog series false false episodes fs0).crashed = none ∧
    (∀ a ∈ allArticles catalog, skipArticle episodes a = false →
      Event.coverEmbed (audioFname san catalog a) ∈
        (save_show env san catalog series false false episodes fs0).events) := by
  obtain ⟨g1, g2, g3, g4⟩ := saveShowLoop_good env san catalog series episodes
    hl hs he (allArticles catalog) fs0
  exact ⟨g1, g3⟩

/-- Witness for `retag_save_failure_nonfatal`: with every tag save failing,
the sample run still finishes uncrashed and embeds covers. -/
theorem retag_save_failure_nonfatal_witness :
    (save_show saveFailEnv (fun s => s) sampleCatalog sampleSeries false false
        none []).crashed = none ∧
    Event.coverEmbed (audioFname (fun s => s) sampleCatalog artA) ∈
      (save_show saveFailEnv (fun s => s) sampleCatalog sampleSeries false false
        none []).events :=
  ⟨(retag_save_failure_nonfatal saveFailEnv (fun s => s) sampleCatalog sampleSeries
      none [] (fun _ => rfl) (fun _ => rfl) (fun _ => Or.inl rfl)).1,
   (retag_save_failure_nonfatal saveFailEnv (fun s => s) sampleCatalog sampleSeries
      none [] (fun _ => rfl) (fun _ => rfl) (fun _ => Or.inl rfl)).2
     artA (by decide) rfl⟩

/-- C10: for an article whose `<title>.mp3` already exists, `save_show` with
default flags skips the download but, on every invocation, still writes the
ID3 tags and re-embeds the cover into the existing file — and the cover
image is fetched over the network once per selected article. -/
theorem existing_file_still_tagged (env : TagEnv) (san : String → String)
    (catalog : Catalog) (series : Series) (episodes : Option (Finset Int))
    (fs0 : List String) (a : Article)
    (hl : ∀ f, env.id3Load f = .ok ()) (hs : ∀ f, env.id3Save f = .ok ())
    (hel : ∀ f, env.easyLoad f = .ok ()) (hes : ∀ f, env.easySave f = .ok ())
    (ha : a ∈ allArticles catalog) (hsel : skipArticle episodes a = false)
    (hex : audioFname san catalog a ∈ fs0) :
    (∀ url, Event.download url (audioFname san catalog a) ∉
      (save_show env san catalog series false false episodes fs0).events) ∧
    Event.retagged (audioFname san catalog a) a.title series.title series.author
      (toString a.sort_number) a.content_url ∈
      (save_show env san catalog series false false episodes fs0).events ∧
    Event.coverEmbed (audioFname san catalog a) ∈
      (save_show env san catalog series false false episodes fs0).events ∧
    coverFetchCount (save_show env san catalog series false false episodes fs0).events =
      ((allArticles catalog).filter (fun x => !skipArticle episodes x)).length := by
  obtain ⟨g1, g2, g3, g4⟩ := saveShowLoop_good env san catalog series episodes
    hl hs (fun f => Or.inl (hel f)) (allArticles catalog) fs0
  exact ⟨fun url => saveShowLoop_no_download_of_existing env san false false
      catalog series episodes _ fs0 url _ hex,
    g4 hes a ha hsel, g3 a ha hsel, g2⟩

/-- Witness for `existing_file_still_tagged`: article A's file pre-exists;
the run does not download it yet still retags it. -/
theorem existing_file_still_tagged_witness :
    Event.retagged (audioFname (fun s => s) sampleCatalog artA) artA.title
      sampleSeries.title sampleSeries.author (toString artA.sort_number)
      artA.content_url ∈
      (save_show allOkEnv (fun s => s) sampleCatalog sampleSeries false false none
        [audioFname (fun s => s) sampleCatalog artA]).events :=
  (existing_file_still_tagged allOkEnv (fun s => s) sampleCatalog sampleSeries none
    [audioFname (fun s => s) sampleCatalog artA] artA
    (fun _ => rfl) (fun _ => rfl) (fun _ => rfl) (fun _ => rfl)
    (by decide) rfl (List.mem_singleton.mpr rfl)).2.1

/-- Observable filesystem actions of a `save_transcript` run (Markdown
mode).  Write payloads are abstracted except for the `SUMMARY.md` lines,
which this claim is about. -/
inductive TEvent where
  | writeBookJson
  | writeReadme
  | writeSummary (lines : List String)
  | mkPartDir (dir : String)
  | writeArticleFile (path : String) (title : String)
  | printWarn (title : String)
  | appendSummary (lines : List String)
  deriving Repr, DecidableEq

/-- The inner article loop of `save_transcript` (visitor.py:305-345):
skip unselected articles; fetch the full content (the `content` oracle maps
`article_id` to the fetched HTML, `""` when unavailable); warn and skip on
empty content; otherwise write `<safe title>.md` (inside the part directory
when one exists) and record the article's `SUMMARY.md` entry. -/
def transcriptArticles (san : String → String) (content : String → String)
    (episodes : Option (Finset Int)) (partDir : Option String) :
    List Article → List TEvent × List String
  | [] => ([], [])
  | a :: rest =>
    let r := transcriptArticles san content episodes partDir rest
    if skipArticle episodes a then r
    else if content a.article_id = "" then (.printWarn a.title :: r.1, r.2)
    else
      let relative_path :=
        match partDir with
        | some d => d ++ "/" ++ san a.title ++ ".md"
        | none => san a.title ++ ".md"
      let item :=
        match partDir with
        | some _ => "  * [" ++ a.title ++ "](" ++ relative_path ++ ")"
        | none => "* [" ++ a.title ++ "](" ++ relative_path ++ ")"
      (.writeArticleFile relative_path a.title :: r.1, item :: r.2)

/-- The outer part loop of `save_transcript` (visitor.py:293-345), with the
running part index: part titles default to `第{i+1}章`; when GitBook format
is on and the catalog has more than one part, a per-part directory is
created and a chapter line is recorded. -/
def transcriptParts (san : String → String) (content : String → String)
    (gitbook : Bool) (multipart : Bool) (episodes : Option (Finset Int)) :
    Nat → List CatalogPart → List TEvent × List String
  | _, [] => ([], [])
  | i, p :: rest =>
    let ptitle := p.title.getD ("第" ++ toString (i + 1) ++ "章")
    let partDir : Option String :=
      if gitbook && multipart then some (san ptitle) else none
    let dirEvs : List TEvent :=
      match partDir with
      | some d => [.mkPartDir d]
      | none => []
    let chapterItems : List String :=
      if gitbook && multipart then ["* [" ++ ptitle ++ "]()"] else []
    let ra := transcriptArticles san content episodes partDir p.part
    let rr := transcriptParts san content gitbook multipart episodes (i + 1) rest
    (dirEvs ++ ra.1 ++ rr.1, chapterItems ++ ra.2 ++ rr.2)

/-- `Visitor.save_transcript` (visitor.py:216-355) as its sequence of
filesystem actions: when GitBook format is on, `book.json`, `README.md` and
the `SUMMARY.md` header are written first; the part/article loops collect
`summary_items` in memory; and only after the whole loop does a single
append (`open(..., "a")`, visitor.py:348-351) add the collected items to
`SUMMARY.md`. -/
def save_transcript (san : String → String) (content : String → String)
    (catalog : Catalog) (episodes : Option (Finset Int)) (gitbook_format : Bool) :
    List TEvent :=
  let pre : List TEvent :=
    if gitbook_format then
      [.writeBookJson, .writeReadme,
       .writeSummary ["# 目录", "", "* [简介](README.md)"]]
    else []
  let r := transcriptParts san content gitbook_format
    (decide (catalog.catalog.length > 1)) episodes 0 catalog.catalog
  pre ++ r.1 ++ (if gitbook_format then [.appendSummary r.2] else [])

/-- The effect of one event on the contents of `SUMMARY.md` (as lines):
`writeSummary` truncates and writes, `appendSummary` appends, everything
else leaves the file alone. -/
def summaryStep (acc : List String) : TEvent → List String
  | .writeSummary ls => ls
  | .appendSummary ls => acc ++ ls
  | _ => acc

/-- The lines of `SUMMARY.md` on disk after executing a prefix of the run's
events (the file is absent/empty before the run). -/
def summaryLines (evs : List TEvent) : List String :=
  evs.foldl summaryStep []

/-- Whether an event writes to `SUMMARY.md`. -/
def touchesSummary : TEvent → Bool
  | .writeSummary _ => true
  | .appendSummary _ => true
  | _ => false

/-- The article loop writes article files and warnings only — it never
touches `SUMMARY.md`. -/
theorem transcriptArticles_no_summary (san : String → String)
    (content : String → String) (eps : Option (Finset Int))
    (partDir : Option String) (L : List Article) :
    ∀ e ∈ (transcriptArticles san content eps partDir L).1,
      touchesSummary e = false := by
  induction L with
  | nil => simp [transcriptArticles]
  | cons a rest ih =>
    intro e he
    simp only [transcriptArticles] at he
    by_cases h1 : skipArticle eps a
    · rw [if_pos h1] at he
      exact ih e he
    · rw [if_neg h1] at he
      by_cases h2 : content a.article_id = ""
      · rw [if_pos h2] at he
        rcases List.mem_cons.mp he with rfl | he'
        · rfl
        · exact ih e he'
      · rw [if_neg h2] at he
        rcases List.mem_cons.mp he with rfl | he'
        · rfl
        · exact ih e he'

/-- The part loop never touches `SUMMARY.md` either. -/
theorem transcriptParts_no_summary (san : String → String)
    (content : String → String) (gitbook multipart : Bool)
    (eps : Option (Finset Int)) (i : Nat) (ps : List CatalogPart) :
    ∀ e ∈ (transcriptParts san content gitbook multipart eps i ps).1,
      touchesSummary e = false := by
  induction ps generalizing i with
  | nil => simp [transcriptParts]
  | cons p rest ih =>
    intro e he
    rw [transcriptParts] at he
    simp only [List.mem_append] at he
    rcases he with (he | he) | he
    · by_cases hm : gitbook && multipart
      · rw [if_pos hm] at he
        rcases List.mem_singleton.mp he with rfl
        rfl
      · rw [if_neg hm] at he
        exact absurd he (List.not_mem_nil e)
    · exact transcriptArticles_no_summary san content eps _ p.part e he
    · exact ih (i + 1) e he

/-- Folding the summary effect over events that never touch the file leaves
its contents unchanged. -/
theorem summaryLines_const (l : List TEvent) (acc : List String)
    (h : ∀ e ∈ l, touchesSummary e = false) :
    l.foldl summaryStep acc = acc := by
  induction l generalizing acc with
  | nil => rfl
  | cons e rest ih =>
    have he := h e (List.mem_cons_self _ _)
    have hstep : summaryStep acc e = acc := by
      cases e <;> first | rfl | exact absurd he (by simp [touchesSummary])
    rw [List.foldl_cons, hstep]
    exact ih acc (fun x hx => h x (List.mem_cons_of_mem _ hx))

/-- Modelled from the spec: the navigation entries in catalog order — one
chapter line per part (when the catalog is multi-part and GitBook format is
on) followed by one entry line per selected article with nonempty fetched
content. -/
def specSummaryItems (san : String → String) (content : String → String)
    (gitbook multipart : Bool) (episodes : Option (Finset Int))
    (startIdx : Nat) (parts : List CatalogPart) : List String :=
  (List.enumFrom startIdx parts).flatMap (fun ip =>
    let ptitle := ip.2.title.getD ("第" ++ toString (ip.1 + 1) ++ "章")
    (if gitbook && multipart then ["* [" ++ ptitle ++ "]()"] else []) ++
    (ip.2.part.filter (fun a => !skipArticle episodes a &&
        !(content a.article_id == ""))).map (fun a =>
      if gitbook && multipart then
        "  * [" ++ a.title ++ "](" ++
          (san ptitle ++ "/" ++ san a.title ++ ".md") ++ ")"
      else "* [" ++ a.title ++ "](" ++ (san a.title ++ ".md") ++ ")"))

/-- The items the article loop collects are exactly one entry per selected
article with nonempty content, in order. -/
theorem transcriptArticles_items (san : String → String)
    (content : String → String) (eps : Option (Finset Int))
    (partDir : Option String) (L : List Article) :
    (transcriptArticles san content eps partDir L).2 =
      (L.filter (fun a => !skipArticle eps a &&
          !(content a.article_id == ""))).map (fun a =>
        match partDir with
        | some d => "  * [" ++ a.title ++ "](" ++
            (d ++ "/" ++ san a.title ++ ".md") ++ ")"
        | none => "* [" ++ a.title ++ "](" ++ (san a.title ++ ".md") ++ ")") := by
  induction L with
  | nil => rfl
  | cons a rest ih =>
    simp only [transcriptArticles]
    by_cases h1 : skipArticle eps a
    · rw [if_pos h1, List.filter_cons_of_neg (by simp [h1])]
      exact ih
    · by_cases h2 : content a.article_id = ""
      · rw [if_neg h1, if_pos h2, List.filter_cons_of_neg (by simp [h1, h2])]
        exact ih
      · rw [if_neg h1, if_neg h2, List.filter_cons_of_pos (by simp [h1, h2])]
        rw [List.map_cons]
        cases partDir <;> dsimp only <;> rw [ih]

/-- Unfolding `specSummaryItems` on a cons cell. -/
theorem specSummaryItems_cons (san : String → String) (content : String → String)
    (gitbook multipart : Bool) (eps : Option (Finset Int)) (i : Nat)
    (p : CatalogPart) (rest : List CatalogPart) :
    specSummaryItems san content gitbook multipart eps i (p :: rest) =
      ((if gitbook && multipart then
          ["* [" ++ (p.title.getD ("第" ++ toString (i + 1) ++ "章")) ++ "]()"]
        else []) ++
        (p.part.filter (fun a => !skipArticle eps a &&
            !(content a.article_id == ""))).map (fun a =>
          if gitbook && multipart then
            "  * [" ++ a.title ++ "](" ++
              (san (p.title.getD ("第" ++ toString (i + 1) ++ "章")) ++ "/" ++
                san a.title ++ ".md") ++ ")"
          else "* [" ++ a.title ++ "](" ++ (san a.title ++ ".md") ++ ")")) ++
      specSummaryItems san content gitbook multipart eps (i + 1) rest := by
  simp [specSummaryItems, List.enumFrom]

/-- The items the part loop collects agree with the spec-side description. -/
theorem transcriptParts_items (san : String → String)
    (content : String → String) (gitbook multipart : Bool)
    (eps : Option (Finset Int)) (i : Nat) (ps : List CatalogPart) :
    (transcriptParts san content gitbook multipart eps i ps).2 =
      specSummaryItems san content gitbook multipart eps i ps := by
  induction ps generalizing i with
  | nil => rfl
  | cons p rest ih =>
    simp only [transcriptParts]
    rw [transcriptArticles_items, ih (i + 1), specSummaryItems_cons]
    by_cases hm : (gitbook && multipart) = true
    · simp only [hm, if_true, List.append_assoc]
    · simp only [Bool.not_eq_true] at hm
      simp only [hm, Bool.false_eq_true, if_false, List.nil_append]

/-- C9 counterexample: in GitBook mode on the sample catalog, after the
prefix of the run in which article A has completed (its `.md` file is
written), `SUMMARY.md` still holds only the header — A's navigation entry
is not yet on disk; it appears only in the single append performed after
the whole loop.  This contradicts "the navigation file is appended
incrementally as each article completes". -/
theorem summary_not_incremental_cex :
    TEvent.writeArticleFile "A.md" "A" ∈
      (save_transcript (fun s => s) (fun _ => "x") sampleCatalog none true).take 4 ∧
    "* [A](A.md)" ∉ summaryLines
      ((save_transcript (fun s => s) (fun _ => "x") sampleCatalog none true).take 4) ∧
    "* [A](A.md)" ∈ summaryLines
      (save_transcript (fun s => s) (fun _ => "x") sampleCatalog none true) := by
  refine ⟨by decide, by decide, by decide⟩

/-- C9 amended: in GitBook mode the navigation entries are collected in
memory and written in one append after the loop: the final `SUMMARY.md`
holds the header followed by one chapter line per part (when multi-part)
and one entry per selected article with nonempty content, in catalog order
— but after every proper prefix of the run (e.g. after a crash mid-loop)
the file holds at most the header, with no article entries. -/
theorem summary_appended_after_loop (san : String → String)
    (content : String → String) (catalog : Catalog)
    (episodes : Option (Finset Int)) :
    summaryLines (save_transcript san content catalog episodes true) =
      ["# 目录", "", "* [简介](README.md)"] ++
        specSummaryItems san content true (decide (catalog.catalog.length > 1))
          episodes 0 catalog.catalog ∧
    (∀ k, k < (save_transcript san content catalog episodes true).length →
      summaryLines ((save_transcript san content catalog episodes true).take k) = [] ∨
      summaryLines ((save_transcript san content catalog episodes true).take k) =
        ["# 目录", "", "* [简介](README.md)"]) := by
  have hbody := transcriptParts_no_summary san content true
    (decide (catalog.catalog.length > 1)) episodes 0 catalog.catalog
  constructor
  · simp only [save_transcript]
    rw [summaryLines, List.foldl_append, List.foldl_append]
    rw [summaryLines_const _ _ hbody]
    rw [transcriptParts_items]
    rfl
  · intro k hk
    simp only [save_transcript, if_true] at hk ⊢
    match k with
    | 0 => exact Or.inl rfl
    | 1 => exact Or.inl rfl
    | 2 => exact Or.inl rfl
    | (m + 3) =>
      right
      rw [List.append_assoc, List.take_append_eq_append_take]
      rw [List.take_of_length_le
        (by simp : ([TEvent.writeBookJson, TEvent.writeReadme,
          TEvent.writeSummary ["# 目录", "", "* [简介](README.md)"]]).length ≤ m + 3)]
      have hsub : m + 3 - ([TEvent.writeBookJson, TEvent.writeReadme,
          TEvent.writeSummary ["# 目录", "", "* [简介](README.md)"]]).length = m := by
        simp
      rw [hsub, List.take_append_eq_append_take]
      have hmle : m ≤ (transcriptParts san content true
          (decide (catalog.catalog.length > 1)) episodes 0 catalog.catalog).1.length := by
        simp only [List.length_append, List.length_cons, List.length_nil] at hk
        omega
      have hz : m - (transcriptParts san content true
          (decide (catalog.catalog.length > 1)) episodes 0 catalog.catalog).1.length = 0 := by
        omega
      rw [hz, List.take_zero, List.append_nil]
      rw [summaryLines, List.foldl_append]
      rw [summaryLines_const _ _ (fun e he => hbody e (List.mem_of_mem_take he))]
      rfl

/-- Witness for `summary_appended_after_loop` on the sample catalog. -/
theorem summary_appended_after_loop_witness :
    summaryLines (save_transcript (fun s => s) (fun _ => "x") sampleCatalog none true) =
      ["# 目录", "", "* [简介](README.md)"] ++
        specSummaryItems (fun s => s) (fun _ => "x") true
          (decide (sampleCatalog.catalog.length > 1)) none 0 sampleCatalog.catalog ∧
    (summaryLines ((save_transcript (fun s => s) (fun _ => "x") sampleCatalog
        none true).take 4) = [] ∨
     summaryLines ((save_transcript (fun s => s) (fun _ => "x") sampleCatalog
        none true).take 4) = ["# 目录", "", "* [简介](README.md)"]) :=
  ⟨(summary_appended_after_loop (fun s => s) (fun _ => "x") sampleCatalog none).1,
   (summary_appended_after_loop (fun s => s) (fun _ => "x") sampleCatalog none).2
     4 (by decide)⟩

/-- Lookup in an association list ordered most-recently-used first (the
internal map of `functools.lru_cache`). -/
def cacheLookup {K V : Type} [DecidableEq K] : List (K × V) → K → Option V
  | [], _ => none
  | e :: rest, c => if e.1 = c then some e.2 else cacheLookup rest c

/-- One call through a `functools.lru_cache()`-decorated accessor
(visitor.py:81, 86, 108, 113), with CPython's default `maxsize=128`:
a hit returns the cached value and moves the entry to most-recently-used
without calling the wrapped function; a miss calls it (one network
request), inserts the result as most-recently-used and drops the
least-recently-used entry beyond capacity 128.  Returns the call's result,
the new cache and whether the wrapped function ran. -/
def lruStep {K V : Type} [DecidableEq K] (fetch : K → V) (s : List (K × V))
    (c : K) : V × List (K × V) × Bool :=
  match cacheLookup s c with
  | some v => (v, (c, v) :: s.filter (fun e => decide (e.1 ≠ c)), false)
  | none => (fetch c, ((c, fetch c) :: s).take 128, true)

/-- A sequence of calls to one memoized accessor within a single process:
the cache persists from call to call (it lives on the decorated function
object) and starts empty at process start.  Returns the results, the final
cache, and the trace of (argument, wrapped-function-ran) pairs. -/
def lruRun {K V : Type} [DecidableEq K] (fetch : K → V) :
    List K → List (K × V) → List V × List (K × V) × List (K × Bool)
  | [], s => ([], s, [])
  | c :: rest, s =>
    let r := lruStep fetch s c
    let t := lruRun fetch rest r.2.1
    (r.1 :: t.1, t.2.1, (c, r.2.2) :: t.2.2)

/-- The calls an accessor receives over one process run, starting from the
empty cache. -/
def accessorCalls {K V : Type} [DecidableEq K] (fetch : K → V) (calls : List K) :
    List V × List (K × V) × List (K × Bool) :=
  lruRun fetch calls []

/-- How many times the wrapped function (i.e. the network) was hit for
argument `k` in a trace. -/
def fetchesOf {K : Type} [DecidableEq K] (tr : List (K × Bool)) (k : K) : Nat :=
  (tr.filter (fun p => decide (p.1 = k) && p.2)).length

/-- A successful lookup returns a stored entry. -/
theorem cacheLookup_some {K V : Type} [DecidableEq K] (s : List (K × V)) (c : K)
    (v : V) (h : cacheLookup s c = some v) : (c, v) ∈ s := by
  induction s with
  | nil => exact absurd h (by simp [cacheLookup])
  | cons e rest ih =>
    rw [cacheLookup] at h
    by_cases he : e.1 = c
    · rw [if_pos he] at h
      have hv := Option.some.inj h
      exact List.mem_cons.mpr (Or.inl (by rw [← he, ← hv]))
    · rw [if_neg he] at h
      exact List.mem_cons_of_mem _ (ih h)

/-- A failed lookup means the key is absent. -/
theorem cacheLookup_none {K V : Type} [DecidableEq K] (s : List (K × V)) (c : K)
    (h : cacheLookup s c = none) : c ∉ s.map Prod.fst := by
  induction s with
  | nil => simp
  | cons e rest ih =>
    rw [cacheLookup] at h
    by_cases he : e.1 = c
    · rw [if_pos he] at h
      exact absurd h (by simp)
    · rw [if_neg he] at h
      simp only [List.map_cons, List.mem_cons]
      rintro (rfl | hmem)
      · exact he rfl
      · exact ih h hmem

/-- Keys of the entries surviving a filter on the first component. -/
theorem map_fst_filter_fst {K V : Type} (p : K → Bool) (l : List (K × V)) :
    (l.filter (fun e => p e.1)).map Prod.fst = (l.map Prod.fst).filter p := by
  induction l with
  | nil => rfl
  | cons e rest ih =>
    cases hp : p e.1 <;> simp [List.filter_cons, hp, ih]

/-- Specialization of `map_fst_filter_fst` to the not-equal predicate. -/
theorem map_fst_filter_ne {K V : Type} [DecidableEq K] (c : K) (l : List (K × V)) :
    (l.filter (fun e => decide (e.1 ≠ c))).map Prod.fst =
      (l.map Prod.fst).filter (fun x => decide (x ≠ c)) :=
  map_fst_filter_fst (fun x => decide (x ≠ c)) l

/-- A duplicate-free list drawn from a finite set is no longer than the
set's cardinality. -/
theorem nodup_length_le_card {K : Type} [DecidableEq K] (l : List K) (D : Finset K)
    (h1 : l.Nodup) (h2 : ∀ x ∈ l, x ∈ D) : l.length ≤ D.card := by
  have h3 : l.toFinset ⊆ D := fun x hx => h2 x (List.mem_toFinset.mp hx)
  have h4 := Finset.card_le_card h3
  rwa [List.toFinset_card_of_nodup h1] at h4

/-- Invariant run of the LRU cache: when every argument comes from a set of
at most 128 keys, starting from a well-formed cache drawn from that set,
every call returns `fetch` of its argument, keys already cached are never
fetched again, and no key is fetched more than once. -/
theorem lruRun_spec {K V : Type} [DecidableEq K] (fetch : K → V) (D : Finset K)
    (hD : D.card ≤ 128) (calls : List K) (s : List (K × V))
    (hcalls : ∀ c ∈ calls, c ∈ D)
    (h1 : (s.map Prod.fst).Nodup)
    (h2 : ∀ e ∈ s, e.2 = fetch e.1)
    (h3 : ∀ e ∈ s, e.1 ∈ D) :
    (lruRun fetch calls s).1 = calls.map fetch ∧
    (∀ k, k ∈ s.map Prod.fst → fetchesOf (lruRun fetch calls s).2.2 k = 0) ∧
    (∀ k, fetchesOf (lruRun fetch calls s).2.2 k ≤ 1) := by
  induction calls generalizing s with
  | nil => simp [lruRun, fetchesOf]
  | cons c rest ih =>
    simp only [lruRun]
    cases hl : cacheLookup s c with
    | some v =>
      have hv : v = fetch c := by
        have hmem := cacheLookup_some s c v hl
        simpa using h2 _ hmem
      have hstep : lruStep fetch s c =
          (v, (c, v) :: s.filter (fun e => decide (e.1 ≠ c)), false) := by
        simp [lruStep, hl]
      rw [hstep]
      have hkeys : (((c, v) :: s.filter (fun e => decide (e.1 ≠ c))).map Prod.fst) =
          c :: (s.map Prod.fst).filter (fun x => decide (x ≠ c)) := by
        rw [List.map_cons, map_fst_filter_ne c s]
      have h1' : ((((c, v) :: s.filter (fun e => decide (e.1 ≠ c)))).map Prod.fst).Nodup := by
        rw [hkeys]
        refine List.Nodup.cons ?_ (h1.filter _)
        intro hc
        have := (List.mem_filter.mp hc).2
        simp at this
      have h2' : ∀ e ∈ (c, v) :: s.filter (fun e => decide (e.1 ≠ c)),
          e.2 = fetch e.1 := by
        intro e he
        rcases List.mem_cons.mp he with rfl | he'
        · simpa using hv
        · exact h2 e (List.mem_of_mem_filter he')
      have h3' : ∀ e ∈ (c, v) :: s.filter (fun e => decide (e.1 ≠ c)), e.1 ∈ D := by
        intro e he
        rcases List.mem_cons.mp he with rfl | he'
        · exact hcalls c (List.mem_cons_self _ _)
        · exact h3 e (List.mem_of_mem_filter he')
      have hmono : ∀ k, k ∈ s.map Prod.fst →
          k ∈ ((c, v) :: s.filter (fun e => decide (e.1 ≠ c))).map Prod.fst := by
        intro k hk
        rw [hkeys]
        by_cases hkc : k = c
        · exact hkc ▸ List.mem_cons_self _ _
        · exact List.mem_cons_of_mem _ (List.mem_filter.mpr ⟨hk, by simp [hkc]⟩)
      obtain ⟨ih1, ih2, ih3⟩ := ih ((c, v) :: s.filter (fun e => decide (e.1 ≠ c)))
        (fun x hx => hcalls x (List.mem_cons_of_mem _ hx)) h1' h2' h3'
      refine ⟨by rw [List.map_cons, ← hv, ih1], ?_, ?_⟩
      · intro k hk
        simp only [fetchesOf, List.filter_cons, Bool.and_false,
          Bool.false_eq_true, if_false]
        exact ih2 k (hmono k hk)
      · intro k
        simp only [fetchesOf, List.filter_cons, Bool.and_false,
          Bool.false_eq_true, if_false]
        exact ih3 k
    | none =>
      have hcnot : c ∉ s.map Prod.fst := cacheLookup_none s c hl
      have hlen : ((c, fetch c) :: s).length ≤ 128 := by
        have hnodup : (c :: s.map Prod.fst).Nodup := List.Nodup.cons hcnot h1
        have hsub : ∀ x ∈ c :: s.map Prod.fst, x ∈ D := by
          intro x hx
          rcases List.mem_cons.mp hx with rfl | hx'
          · exact hcalls _ (List.mem_cons_self _ _)
          · rcases List.mem_map.mp hx' with ⟨e, he, rfl⟩
            exact h3 e he
        have := nodup_length_le_card _ D hnodup hsub
        simpa using this.trans hD
      have htake : ((c, fetch c) :: s).take 128 = (c, fetch c) :: s :=
        List.take_of_length_le hlen
      have hstep : lruStep fetch s c = (fetch c, (c, fetch c) :: s, true) := by
        simp [lruStep, hl, htake]
      rw [hstep]
      have h1' : (((c, fetch c) :: s).map Prod.fst).Nodup := by
        rw [List.map_cons]
        exact List.Nodup.cons hcnot h1
      have h2' : ∀ e ∈ (c, fetch c) :: s, e.2 = fetch e.1 := by
        intro e he
        rcases List.mem_cons.mp he with rfl | he'
        · rfl
        · exact h2 e he'
      have h3' : ∀ e ∈ (c, fetch c) :: s, e.1 ∈ D := by
        intro e he
        rcases List.mem_cons.mp he with rfl | he'
        · exact hcalls c (List.mem_cons_self _ _)
        · exact h3 e he'
      obtain ⟨ih1, ih2, ih3⟩ := ih ((c, fetch c) :: s)
        (fun x hx => hcalls x (List.mem_cons_of_mem _ hx)) h1' h2' h3'
      refine ⟨by rw [List.map_cons, ih1], ?_, ?_⟩
      · intro k hk
        have hkc : ¬(c = k) := fun h => hcnot (h ▸ hk)
        simp only [fetchesOf, List.filter_cons, hkc, decide_eq_true_eq,
          Bool.false_and, Bool.false_eq_true, if_false]
        exact ih2 k (List.mem_cons_of_mem _ (by simpa using hk))
      · intro k
        by_cases hkc : c = k
        · subst hkc
          have h0 : fetchesOf (lruRun fetch rest ((c, fetch c) :: s)).2.2 c = 0 :=
            ih2 c (by simp)
          rw [fetchesOf] at h0
          rw [fetchesOf, List.filter_cons]
          simp [h0]
        · simp only [fetchesOf, List.filter_cons, hkc, decide_eq_true_eq,
            Bool.false_and, Bool.false_eq_true, if_false]
          exact ih3 k

set_option maxRecDepth 10000 in
/-- C6 counterexample: the accessors are decorated with `@lru_cache()`,
whose default capacity is 128 entries, not an unbounded per-process memo.
After 129 distinct arguments the first entry has been evicted, so a second
call with that same argument (0, called twice in this sequence) performs a
second network request. -/
theorem accessor_second_network_call_cex :
    (List.range 129 ++ [0]).count 0 = 2 ∧
    fetchesOf (accessorCalls (fun n : Nat => n) (List.range 129 ++ [0])).2.2 0 = 2 := by
  constructor
  · decide
  · decide

/-- C6 amended: each accessor is memoized by an LRU cache of capacity 128
living on the decorated function for the lifetime of the process; as long
as the accessor sees at most 128 distinct arguments, every call returns the
(correct, cached) result and no argument triggers a second network call. -/
theorem accessor_memoized_within_capacity {K V : Type} [DecidableEq K]
    (fetch : K → V) (D : Finset K) (hD : D.card ≤ 128) (calls : List K)
    (hcalls : ∀ c ∈ calls, c ∈ D) :
    (accessorCalls fetch calls).1 = calls.map fetch ∧
    (∀ k, fetchesOf (accessorCalls fetch calls).2.2 k ≤ 1) := by
  obtain ⟨a1, _, a3⟩ := lruRun_spec fetch D hD calls [] hcalls (by simp)
    (by simp) (by simp)
  exact ⟨a1, a3⟩

/-- Witness for `accessor_memoized_within_capacity`: repeating argument 1
in `[1, 2, 1]` returns the cached result and fetches each argument at most
once. -/
theorem accessor_memoized_within_capacity_witness :
    (accessorCalls (fun n : Nat => n) [1, 2, 1]).1 = [1, 2, 1] ∧
    fetchesOf (accessorCalls (fun n : Nat => n) [1, 2, 1]).2.2 1 ≤ 1 :=
  ⟨(accessor_memoized_within_capacity (fun n : Nat => n) ({1, 2} : Finset Nat)
      (by decide) [1, 2, 1] (by decide)).1,
   (accessor_memoized_within_capacity (fun n : Nat => n) ({1, 2} : Finset Nat)
      (by decide) [1, 2, 1] (by decide)).2 1⟩

end Vistopia
